import Mathlib

/-!
Verification development for the `pgsqlinfo` TypeScript library
(`src/index.ts`): a read-only introspection layer over PostgreSQL's
catalog metadata.

The embedding below translates the parts of `src/index.ts` that carry
logic:

* `PgInfoService.query` — the connection-acquiring, error-classifying
  query executor (lines 113–135), modelled as a pure function over a
  `Behavior` describing what the pool/driver does on this call
  (connection acquisition, statement execution, connection release),
  returning the call's outcome together with checkout/release counters
  and the list of `logger.error` invocations;
* the constructor validation (`dbName.trim() === ''`, line 106),
  with JavaScript's `String.prototype.trim` embedded explicitly;
* `PgInfoService.types` catalog validation (lines 149–158);
* the fixed SQL filters of `sqlSelectSchemata` / `sqlSelectSchemataAll`
  (lines 3–19), embedded as row-level predicates over schema rows with
  SQL `LIKE`/null semantics for the literal pattern `'pg_%'`;
* `PgSchemaService.appendArrayDimension` (lines 196–203), the in-place
  array-dimension enrichment, embedded as a fold over the probe rows
  where each step rewrites the first key-matching column row.
-/

namespace PgInfo

/-! ### Fixed logger message constants (src/index.ts lines 100–101) -/

def pgMsgDbQueryError : String := "DB query error"

def pgMsgDbConnError : String := "DB connection error"

/-! ### The query executor

`PgInfoService.query` interacts with three external capabilities that
can each succeed or throw: `this._db.connect()`, `client.query(...)`,
and `client.release()`.  A `Behavior` fixes what each of them does on
one call; `queryRun` is a faithful translation of the `try/catch/finally`
control flow of the method over that behavior. -/

/-- What the pool/driver does on one `query` call: the result of
`connect()`, of `client.query(...)` (a list of rows on success), and of
`client.release()` (which, being an external call, may itself throw). -/
structure Behavior (Row Err : Type) where
  connect : Except Err Unit
  exec : Except Err (List Row)
  release : Except Err Unit

/-- Observable outcome of one `query` call: the value returned or error
thrown, the number of successful pool checkouts, the number of
`client.release()` invocations, and the sequence of `logger.error`
calls (message, error object) in order. -/
structure QueryOutcome (Row Err : Type) where
  result : Except Err (List Row)
  checkouts : Nat
  releases : Nat
  logs : List (String × Err)

/-- Embedding of `PgInfoService.query` (src/index.ts lines 113–135).

Control flow of the source: `rows = []; dbErr = null;` then an outer
`try` whose body acquires a client, an inner `try` that runs the
statement and assigns `rows`, an inner `catch` that records the error in
`dbErr` and logs `pgMsgDbQueryError`, an inner `finally` that calls
`client.release()`; the outer `catch` (reached when `connect()` throws,
or when `release()` itself throws out of the `finally`) logs
`pgMsgDbConnError` and rethrows; finally `if (dbErr) throw dbErr` and
otherwise `return rows`. -/
def queryRun {Row Err : Type} (b : Behavior Row Err) : QueryOutcome Row Err :=
  match b.connect with
  | .error e =>
    -- `connect()` threw: outer catch logs the connection error and rethrows.
    { result := .error e, checkouts := 0, releases := 0
      logs := [(pgMsgDbConnError, e)] }
  | .ok _ =>
    -- checkout succeeded; run the statement under the inner try/catch.
    let rows : List Row := match b.exec with | .ok rs => rs | .error _ => []
    let dbErr : Option Err := match b.exec with | .ok _ => none | .error e => some e
    let logs₁ : List (String × Err) :=
      match b.exec with | .ok _ => [] | .error e => [(pgMsgDbQueryError, e)]
    -- the inner finally invokes `client.release()` exactly once.
    match b.release with
    | .error re =>
      -- the release error escapes to the outer catch, which logs the
      -- connection-error tag and rethrows it (replacing any query error).
      { result := .error re, checkouts := 1, releases := 1
        logs := logs₁ ++ [(pgMsgDbConnError, re)] }
    | .ok _ =>
      match dbErr with
      | some e => { result := .error e, checkouts := 1, releases := 1, logs := logs₁ }
      | none => { result := .ok rows, checkouts := 1, releases := 1, logs := logs₁ }

/-! ### Schema rows and the two schemata queries

`PgSchema` mirrors the `PgSchema` interface of src/index.ts (one field
per column of `information_schema.schemata`, each nullable).
`sqlSelectSchemataAll` filters rows by `catalog_name = $1` only;
`sqlSelectSchemata` additionally requires
`schema_name <> 'information_schema' AND schema_name NOT LIKE 'pg_%'`.
The two WHERE clauses are embedded as row-level Boolean predicates with
SQL three-valued-logic null handling (a NULL comparand makes the
condition non-true, so the row is dropped).  The `ORDER BY schema_name`
clause only permutes the retained rows and is not modelled; all claims
about these queries are membership claims. -/

structure PgSchema where
  catalog_name : Option String
  default_character_set_catalog : Option String
  default_character_set_name : Option String
  default_character_set_schema : Option String
  schema_name : Option String
  schema_owner : Option String
  sql_path : Option String
deriving Repr, DecidableEq

/-- SQL `s LIKE 'pg_%'` for the literal pattern of `sqlSelectSchemata`:
`p`, `g` literally, `_` matches exactly one character, `%` matches any
(possibly empty) suffix — so the pattern matches exactly the strings
whose characters are `p`, `g`, then at least one further character. -/
def likePgUnderscorePercent (s : String) : Bool :=
  match s.data with
  | 'p' :: 'g' :: _ :: _ => true
  | _ => false

/-- Row predicate of the `sqlSelectSchemataAll` WHERE clause
(`catalog_name = $1`); a NULL `catalog_name` never compares equal. -/
def schemataAllPred (dbName : String) (s : PgSchema) : Bool :=
  s.catalog_name == some dbName

/-- Row predicate of the `sqlSelectSchemata` WHERE clause
(`catalog_name = $1 AND schema_name <> 'information_schema' AND
schema_name NOT LIKE 'pg_%'`); a NULL `schema_name` makes both
schema-name conditions unknown, dropping the row. -/
def schemataPred (dbName : String) (s : PgSchema) : Bool :=
  s.catalog_name == some dbName &&
    match s.schema_name with
    | some n => n != "information_schema" && !(likePgUnderscorePercent n)
    | none => false

/-- Rows returned by `PgInfoService.schemataAll()` on a catalog whose
`information_schema.schemata` view holds `db` (order by schema name not
modelled). -/
def schemataAllRows (db : List PgSchema) (dbName : String) : List PgSchema :=
  db.filter (schemataAllPred dbName)

/-- Rows returned by `PgInfoService.schemata()` on the same catalog. -/
def schemataRows (db : List PgSchema) (dbName : String) : List PgSchema :=
  db.filter (schemataPred dbName)

/-! ### `PgInfoService.types` catalog validation (lines 149–158)

The method first accepts `catalog === 'pg_catalog'` outright; otherwise
it fetches `schemataAll()` and accepts iff some returned row has
`schema_name === catalog`.  On rejection it throws
`invalid catalog "<catalog>" to find types` before issuing the
type-descriptor query; on acceptance it issues the interpolated
`sqlSelectTypes(catalog)` statement. -/

/-- The interpolated statement text of `sqlSelectTypes(catalog)`. -/
def sqlSelectTypes (catalog : String) : String :=
  "\nselect\n  *\nFROM " ++ catalog ++ ".pg_type\nORDER BY typname;\n"

/-- Embedding of `PgInfoService.types`: given the catalog's schemata
view contents `db` and the service's `dbName`, returns the outcome
(`.ok` when validation passes, `.error` with the thrown message
otherwise) together with the list of statements issued against
`pg_type` (empty exactly when validation rejects). -/
def typesRun (db : List PgSchema) (dbName : String) (catalog : String) :
    Except String Unit × List String :=
  let isValidCatalog :=
    catalog == "pg_catalog" ||
      (schemataAllRows db dbName).any (fun s => s.schema_name == some catalog)
  if isValidCatalog then (.ok (), [sqlSelectTypes catalog])
  else (.error ("invalid catalog \x22" ++ catalog ++ "\x22 to find types"), [])

/-! ### Constructor validation (lines 105–107)

`new PgInfoService(db, dbName, logger)` throws
`Error('invalid database name')` iff `dbName.trim() === ''`.
JavaScript's `String.prototype.trim` removes the characters of the
ECMAScript WhiteSpace and LineTerminator productions from both ends;
it is embedded explicitly below. -/

/-- ECMAScript whitespace as trimmed by `String.prototype.trim`:
TAB, LF, VT, FF, CR, space, NBSP, BOM, the Unicode `Space_Separator`
code points, and the line separators U+2028/U+2029. -/
def jsIsWhitespace (c : Char) : Bool :=
  c.toNat ∈ [0x9, 0xA, 0xB, 0xC, 0xD, 0x20, 0xA0, 0x1680,
    0x2000, 0x2001, 0x2002, 0x2003, 0x2004, 0x2005, 0x2006, 0x2007,
    0x2008, 0x2009, 0x200A, 0x2028, 0x2029, 0x202F, 0x205F, 0x3000, 0xFEFF]

/-- JavaScript `s.trim()`: drop leading and trailing whitespace. -/
def jsTrim (s : String) : String :=
  ⟨((s.data.dropWhile jsIsWhitespace).reverse.dropWhile jsIsWhitespace).reverse⟩

/-- The state a constructed `PgInfoService` carries that the claims
need: the validated database name. -/
structure PgInfoServiceState where
  dbName : String
deriving Repr, DecidableEq

/-- Embedding of the `PgInfoService` constructor: throws
`invalid database name` iff the trimmed name is empty, otherwise
produces the service state.  No query is issued either way (the
constructor performs no I/O). -/
def mkPgInfoService (dbName : String) : Except String PgInfoServiceState :=
  if jsTrim dbName == "" then .error "invalid database name"
  else .ok { dbName := dbName }

/-! ### Array-dimension enrichment (`appendArrayDimension`, lines 196–203)

Column rows are modelled with the two join-key fields, the mutable
`array_dimension` field, and a `rest` component standing for all the
other (read-only) fields of the `PgColumn` interface.  Probe rows
mirror the `PgTableArrayColumn` interface (all fields non-nullable).
The source loops over the probe rows; for each it `find`s the first
column row with `c.table_name === a.table_name &&
c.column_name === a.column_name` and, if found, overwrites that row's
`array_dimension` in place. -/

structure PgColumn where
  table_name : Option String
  column_name : Option String
  array_dimension : Option Int
  rest : List (String × Option String)
deriving Repr, DecidableEq

structure PgTableArrayColumn where
  table_name : String
  column_name : String
  array_dimension : Int
deriving Repr, DecidableEq

/-- The `find` predicate of the source:
`c.table_name === a.table_name && c.column_name === a.column_name`
(a NULL field never strictly-equals a string). -/
def colMatches (c : PgColumn) (a : PgTableArrayColumn) : Bool :=
  c.table_name == some a.table_name && c.column_name == some a.column_name

/-- One loop iteration: overwrite the `array_dimension` of the first
column row matching probe `a`, if any. -/
def setFirstMatch (cs : List PgColumn) (a : PgTableArrayColumn) : List PgColumn :=
  match cs with
  | [] => []
  | c :: cs' =>
    if colMatches c a then { c with array_dimension := some a.array_dimension } :: cs'
    else c :: setFirstMatch cs' a

/-- Embedding of `PgSchemaService.appendArrayDimension`: fold the loop
body over the probe rows in order, returning the updated column list
(the source mutates `colRecords` in place; the probe list is only
read). -/
def appendArrayDimension (cs : List PgColumn) (ps : List PgTableArrayColumn) :
    List PgColumn :=
  ps.foldl setFirstMatch cs

/-- Index of the first column row matching probe `a`, if any — the
position `colRecords.find(...)` locates. -/
def firstMatchIdx (cs : List PgColumn) (a : PgTableArrayColumn) : Option Nat :=
  match cs with
  | [] => none
  | c :: cs' =>
    if colMatches c a then some 0 else (firstMatchIdx cs' a).map (· + 1)

/-- The join key of a column row, the pair the source compares with
`===`. -/
def colKey (c : PgColumn) : Option String × Option String :=
  (c.table_name, c.column_name)

/-! ### Lemmas about the enrichment fold -/

lemma colMatches_set (c : PgColumn) (d : Option Int) (a : PgTableArrayColumn) :
    colMatches { c with array_dimension := d } a = colMatches c a := rfl

lemma set_set (c : PgColumn) (d d' : Option Int) :
    ({ { c with array_dimension := d' } with array_dimension := d }) =
      { c with array_dimension := d } := rfl

lemma setFirstMatch_length (cs : List PgColumn) (a : PgTableArrayColumn) :
    (setFirstMatch cs a).length = cs.length := by
  induction cs with
  | nil => rfl
  | cons c cs ih => cases h : colMatches c a <;> simp [setFirstMatch, h, ih]

lemma firstMatchIdx_setFirstMatch (cs : List PgColumn) (b a : PgTableArrayColumn) :
    firstMatchIdx (setFirstMatch cs b) a = firstMatchIdx cs a := by
  induction cs with
  | nil => rfl
  | cons c cs ih =>
    cases hb : colMatches c b <;>
      cases ha : colMatches c a <;>
        simp [setFirstMatch, firstMatchIdx, hb, ha, colMatches_set, ih]

lemma setFirstMatch_get? (cs : List PgColumn) (a : PgTableArrayColumn) (i : Nat) :
    (setFirstMatch cs a).get? i =
      if firstMatchIdx cs a = some i then
        (cs.get? i).map (fun c => { c with array_dimension := some a.array_dimension })
      else cs.get? i := by
  induction cs generalizing i with
  | nil => simp [setFirstMatch, firstMatchIdx]
  | cons c cs ih =>
    have hsfm : setFirstMatch (c :: cs) a =
        if colMatches c a then { c with array_dimension := some a.array_dimension } :: cs
        else c :: setFirstMatch cs a := rfl
    cases ha : colMatches c a
    · rw [hsfm, if_neg (by simp [ha])]
      match i with
      | 0 =>
        rw [List.get?_cons_zero, List.get?_cons_zero,
          if_neg (by simp [firstMatchIdx, ha])]
      | i + 1 =>
        rw [List.get?_cons_succ, List.get?_cons_succ, ih]
        have hcond : (firstMatchIdx (c :: cs) a = some (i + 1)) ↔
            (firstMatchIdx cs a = some i) := by
          simp [firstMatchIdx, ha]
        by_cases hm : firstMatchIdx cs a = some i
        · rw [if_pos hm, if_pos (hcond.mpr hm)]
        · rw [if_neg hm, if_neg (fun hx => hm (hcond.mp hx))]
    · rw [hsfm, if_pos (by simp [ha])]
      match i with
      | 0 =>
        rw [List.get?_cons_zero, List.get?_cons_zero,
          if_pos (by simp [firstMatchIdx, ha])]
        rfl
      | i + 1 =>
        rw [List.get?_cons_succ, List.get?_cons_succ,
          if_neg (by simp [firstMatchIdx, ha])]

lemma appendArrayDimension_nil (cs : List PgColumn) :
    appendArrayDimension cs [] = cs := rfl

lemma appendArrayDimension_cons (cs : List PgColumn) (a : PgTableArrayColumn)
    (ps : List PgTableArrayColumn) :
    appendArrayDimension cs (a :: ps) = appendArrayDimension (setFirstMatch cs a) ps := rfl

lemma appendArrayDimension_append_singleton (cs : List PgColumn)
    (ps : List PgTableArrayColumn) (a : PgTableArrayColumn) :
    appendArrayDimension cs (ps ++ [a]) = setFirstMatch (appendArrayDimension cs ps) a := by
  simp [appendArrayDimension, List.foldl_append]

lemma appendArrayDimension_length (cs : List PgColumn) (ps : List PgTableArrayColumn) :
    (appendArrayDimension cs ps).length = cs.length := by
  induction ps generalizing cs with
  | nil => rfl
  | cons a ps ih => rw [appendArrayDimension_cons, ih, setFirstMatch_length]

lemma firstMatchIdx_appendArrayDimension (cs : List PgColumn)
    (ps : List PgTableArrayColumn) (a : PgTableArrayColumn) :
    firstMatchIdx (appendArrayDimension cs ps) a = firstMatchIdx cs a := by
  induction ps generalizing cs with
  | nil => rfl
  | cons b ps ih => rw [appendArrayDimension_cons, ih, firstMatchIdx_setFirstMatch]

lemma getLast?_append_single {α : Type} (l : List α) (a : α) :
    (l ++ [a]).getLast? = some a := by
  induction l with
  | nil => rfl
  | cons x l ih => rw [List.cons_append, List.getLast?_cons, ih]; cases l <;> rfl

/-- Per-index characterization of the whole enrichment fold: position
`i` of the result carries the dimension of the **last** probe row whose
first match lands on `i`, and is untouched when no probe first-matches
there. -/
lemma appendArrayDimension_get? (cs : List PgColumn) (ps : List PgTableArrayColumn)
    (i : Nat) :
    (appendArrayDimension cs ps).get? i =
      match (ps.filter (fun a => firstMatchIdx cs a == some i)).getLast? with
      | some a =>
        (cs.get? i).map (fun c => { c with array_dimension := some a.array_dimension })
      | none => cs.get? i := by
  induction ps using List.reverseRecOn with
  | nil => simp [appendArrayDimension_nil]
  | append_singleton ps a ih =>
    rw [appendArrayDimension_append_singleton, setFirstMatch_get?,
      firstMatchIdx_appendArrayDimension, ih, List.filter_append]
    by_cases hc : firstMatchIdx cs a = some i
    · rw [if_pos hc]
      have hfa : List.filter (fun a => firstMatchIdx cs a == some i) [a] = [a] := by
        simp [List.filter, hc]
      rw [hfa, getLast?_append_single]
      cases hL : (ps.filter (fun a => firstMatchIdx cs a == some i)).getLast?
      · simp [hL]
      · simp only [hL, Option.map_map]
        congr 1
    · rw [if_neg hc]
      have hb : (firstMatchIdx cs a == some i) = false := by simp [hc]
      have hfa : List.filter (fun a => firstMatchIdx cs a == some i) [a] = [] := by
        simp [List.filter, hb]
      rw [hfa, List.append_nil]

lemma colMatches_iff (c : PgColumn) (a : PgTableArrayColumn) :
    colMatches c a = true ↔
      c.table_name = some a.table_name ∧ c.column_name = some a.column_name := by
  simp [colMatches]

lemma colKey_eq_of_matches {c c' : PgColumn} {a : PgTableArrayColumn}
    (h : colMatches c a = true) (h' : colMatches c' a = true) : colKey c = colKey c' := by
  rw [colMatches_iff] at h h'
  simp [colKey, h.1, h.2, h'.1, h'.2]

lemma firstMatchIdx_eq_some {cs : List PgColumn} {a : PgTableArrayColumn} {i : Nat}
    (h : firstMatchIdx cs a = some i) :
    ∃ c, cs.get? i = some c ∧ colMatches c a = true := by
  induction cs generalizing i with
  | nil => simp [firstMatchIdx] at h
  | cons c cs ih =>
    by_cases hm : colMatches c a = true
    · rw [firstMatchIdx, if_pos hm] at h
      cases h
      exact ⟨c, rfl, hm⟩
    · rw [firstMatchIdx, if_neg hm] at h
      match i, h with
      | _, h =>
        rcases Option.map_eq_some'.mp h with ⟨j, hj, rfl⟩
        rcases ih hj with ⟨c', hc', hm'⟩
        exact ⟨c', by simpa using hc', hm'⟩

lemma firstMatchIdx_eq_none {cs : List PgColumn} {a : PgTableArrayColumn}
    (h : ∀ c ∈ cs, colMatches c a = false) : firstMatchIdx cs a = none := by
  induction cs with
  | nil => rfl
  | cons c cs ih =>
    rw [firstMatchIdx, if_neg (by simp [h c (by simp)]),
      ih (fun c' hc' => h c' (by simp [hc']))]
    rfl

lemma firstMatchIdx_of_nodup {cs : List PgColumn} {a : PgTableArrayColumn}
    {i : Nat} {c : PgColumn} (hnd : (cs.map colKey).Nodup)
    (hget : cs.get? i = some c) (hm : colMatches c a = true) :
    firstMatchIdx cs a = some i := by
  induction cs generalizing i with
  | nil => simp at hget
  | cons c₀ cs ih =>
    rw [List.map_cons, List.nodup_cons] at hnd
    match i with
    | 0 =>
      rw [List.get?_cons_zero] at hget
      cases hget
      rw [firstMatchIdx, if_pos hm]
    | i + 1 =>
      rw [List.get?_cons_succ] at hget
      have hmem : c ∈ cs := List.get?_mem hget
      by_cases hm₀ : colMatches c₀ a = true
      · have hkey : colKey c = colKey c₀ := colKey_eq_of_matches hm hm₀
        exact absurd (List.mem_map_of_mem colKey hmem) (by rw [hkey]; exact hnd.1)
      · rw [firstMatchIdx, if_neg hm₀, ih hnd.2 hget]
        rfl

/-- If no probe row first-matches position `i`, that position of the
result is the original row. -/
lemma appendArrayDimension_no_target {cs : List PgColumn} {ps : List PgTableArrayColumn}
    {i : Nat} {c : PgColumn}
    (hL : (ps.filter (fun a => firstMatchIdx cs a == some i)).getLast? = none)
    (hget : cs.get? i = some c) :
    (appendArrayDimension cs ps).get? i = some c := by
  rw [appendArrayDimension_get?, hL, hget]

/-- If probe row `a` is the last one first-matching position `i`, that
position of the result is the original row with `array_dimension`
overwritten by `a`'s dimension — and `a` is a probe row matching it. -/
lemma appendArrayDimension_last_target {cs : List PgColumn} {ps : List PgTableArrayColumn}
    {i : Nat} {c : PgColumn} {a : PgTableArrayColumn}
    (hL : (ps.filter (fun b => firstMatchIdx cs b == some i)).getLast? = some a)
    (hget : cs.get? i = some c) :
    a ∈ ps ∧ colMatches c a = true ∧
      (appendArrayDimension cs ps).get? i =
        some { c with array_dimension := some a.array_dimension } := by
  have hmem := List.mem_of_getLast?_eq_some hL
  rw [List.mem_filter] at hmem
  have hfmi : firstMatchIdx cs a = some i := by simpa using hmem.2
  rcases firstMatchIdx_eq_some hfmi with ⟨c', hget', hm'⟩
  rw [hget] at hget'
  cases hget'
  refine ⟨hmem.1, hm', ?_⟩
  rw [appendArrayDimension_get?, hL, hget]
  rfl

/-- A row matching no probe at all is the target of no probe. -/
lemma targets_eq_nil {cs : List PgColumn} {ps : List PgTableArrayColumn}
    {i : Nat} {c : PgColumn} (hget : cs.get? i = some c)
    (hno : ∀ a ∈ ps, colMatches c a = false) :
    ps.filter (fun a => firstMatchIdx cs a == some i) = [] := by
  rw [List.filter_eq_nil_iff]
  intro a ha
  simp only [beq_iff_eq]
  intro hfmi
  rcases firstMatchIdx_eq_some hfmi with ⟨c', hget', hm'⟩
  rw [hget] at hget'
  cases hget'
  rw [hno a ha] at hm'
  cases hm'

/-! ### Lemmas about the embedded JavaScript trim -/

lemma jsTrim_eq_empty (s : String) :
    jsTrim s = "" ↔ ∀ c ∈ s.data, jsIsWhitespace c = true := by
  rw [jsTrim, String.ext_iff]
  show ((s.data.dropWhile jsIsWhitespace).reverse.dropWhile jsIsWhitespace).reverse =
      [] ↔ _
  rw [List.reverse_eq_nil_iff, List.dropWhile_eq_nil_iff]
  constructor
  · intro h c hc
    have hsplit : c ∈ s.data.takeWhile jsIsWhitespace ++ s.data.dropWhile jsIsWhitespace := by
      rwa [List.takeWhile_append_dropWhile]
    rcases List.mem_append.mp hsplit with h₁ | h₂
    · exact List.mem_takeWhile_imp h₁
    · exact h c (List.mem_reverse.mpr h₂)
  · intro h c hc
    exact h c ((List.dropWhile_sublist jsIsWhitespace).mem (List.mem_reverse.mp hc))

/-! ## Claim theorems -/

/-- C1: in every `PgInfoService.query` call, each pool checkout is
matched by exactly one `client.release()` invocation: the two counters
are always equal, and whenever connection acquisition succeeds the
connection is released exactly once — on the success path, on the
execution-failure path, and even when the release bookkeeping itself
throws. -/
theorem query_release_balanced {Row Err : Type} (b : Behavior Row Err) :
    (queryRun b).releases = (queryRun b).checkouts ∧
      (b.connect = .ok () → (queryRun b).releases = 1 ∧ (queryRun b).checkouts = 1) := by
  rcases b with ⟨conn, ex, rel⟩
  cases conn <;> cases ex <;> cases rel <;> simp [queryRun]

theorem query_release_balanced_witness :
    (queryRun (⟨.ok (), .ok [()], .ok ()⟩ : Behavior Unit Unit)).releases =
        (queryRun (⟨.ok (), .ok [()], .ok ()⟩ : Behavior Unit Unit)).checkouts ∧
      (queryRun (⟨.ok (), .ok [()], .ok ()⟩ : Behavior Unit Unit)).releases = 1 ∧
      (queryRun (⟨.ok (), .ok [()], .ok ()⟩ : Behavior Unit Unit)).checkouts = 1 := by
  have h := query_release_balanced (⟨.ok (), .ok [()], .ok ()⟩ : Behavior Unit Unit)
  exact ⟨h.1, h.2 rfl⟩

/-- C2 counterexample: when acquisition succeeds, execution fails with
`qe`, and the release call itself throws `re`, the logger is invoked
twice (once with the query-error tag, once with the connection-error
tag) and the error surfaced to the caller is the release error, not the
original execution error — refuting "the logger is called exactly once
... and the original error object is re-raised unmodified" for
execution-failure calls. -/
theorem query_error_logging_cex :
    (queryRun (⟨.ok (), .error "qe", .error "re"⟩ : Behavior Unit String)).logs =
        [(pgMsgDbQueryError, "qe"), (pgMsgDbConnError, "re")] ∧
      (queryRun (⟨.ok (), .error "qe", .error "re"⟩ : Behavior Unit String)).result =
        Except.error "re" ∧
      (queryRun (⟨.ok (), .error "qe", .error "re"⟩ : Behavior Unit String)).logs.length ≠ 1 := by
  refine ⟨rfl, rfl, by decide⟩

/-- C2 (amended: the execution-failure guarantees hold provided the
release call does not itself throw; when it does, the logger receives a
second connection-error call and the release error replaces the
original): a failed acquisition logs exactly
`(pgMsgDbConnError, e)` once and rethrows `e` unmodified; a failed
execution followed by a clean release logs exactly
`(pgMsgDbQueryError, e)` once and rethrows `e` unmodified; whenever the
release does not throw, the logger is invoked at most once. -/
theorem query_error_logging {Row Err : Type} (b : Behavior Row Err) (e : Err) :
    (b.connect = .error e →
      (queryRun b).logs = [(pgMsgDbConnError, e)] ∧ (queryRun b).result = .error e) ∧
    (b.connect = .ok () → b.exec = .error e → b.release = .ok () →
      (queryRun b).logs = [(pgMsgDbQueryError, e)] ∧ (queryRun b).result = .error e) ∧
    (b.release = .ok () → (queryRun b).logs.length ≤ 1) := by
  rcases b with ⟨conn, ex, rel⟩
  cases conn <;> cases ex <;> cases rel <;> simp [queryRun]

theorem query_error_logging_witness :
    ((queryRun (⟨.error "e", .ok [()], .ok ()⟩ : Behavior Unit String)).logs =
        [(pgMsgDbConnError, "e")] ∧
      (queryRun (⟨.error "e", .ok [()], .ok ()⟩ : Behavior Unit String)).result =
        Except.error "e") ∧
    ((queryRun (⟨.ok (), .error "q", .ok ()⟩ : Behavior Unit String)).logs =
        [(pgMsgDbQueryError, "q")] ∧
      (queryRun (⟨.ok (), .error "q", .ok ()⟩ : Behavior Unit String)).result =
        Except.error "q") ∧
    (queryRun (⟨.ok (), .error "q", .ok ()⟩ : Behavior Unit String)).logs.length ≤ 1 := by
  refine ⟨(query_error_logging (⟨.error "e", .ok [()], .ok ()⟩ : Behavior Unit String)
      "e").1 rfl, ?_, ?_⟩
  · exact (query_error_logging (⟨.ok (), .error "q", .ok ()⟩ : Behavior Unit String)
      "q").2.1 rfl rfl rfl
  · exact (query_error_logging (⟨.ok (), .error "q", .ok ()⟩ : Behavior Unit String)
      "q").2.2 rfl

/-- C8: a `query` call never surfaces partial rows: whenever the call
returns (rather than throws), the returned list is exactly the complete
result set the driver produced for the statement.  Every public
query-issuing operation delegates to this executor. -/
theorem query_complete_rows {Row Err : Type} (b : Behavior Row Err) (rs : List Row) :
    (queryRun b).result = .ok rs → b.exec = .ok rs := by
  rcases b with ⟨conn, ex, rel⟩
  cases conn <;> cases ex <;> cases rel <;> simp [queryRun]

theorem query_complete_rows_witness :
    (⟨.ok (), .ok [3], .ok ()⟩ : Behavior Nat Unit).exec = .ok [3] :=
  query_complete_rows (⟨.ok (), .ok [3], .ok ()⟩ : Behavior Nat Unit) [3] rfl

/-- C7: constructing `PgInfoService` succeeds (producing the service
state with the given name, and issuing no query) whenever the database
name contains some non-whitespace character — i.e. whenever its trimmed
value is non-empty — and throws `invalid database name` whenever every
character of the name is whitespace, which covers both the empty string
and every whitespace-only string. -/
theorem mkPgInfoService_valid (s : String) :
    ((∃ c ∈ s.data, jsIsWhitespace c = false) → mkPgInfoService s = .ok ⟨s⟩) ∧
    ((∀ c ∈ s.data, jsIsWhitespace c = true) →
      mkPgInfoService s = .error "invalid database name") := by
  constructor
  · rintro ⟨c, hc, hw⟩
    rw [mkPgInfoService, if_neg]
    simp only [beq_iff_eq, jsTrim_eq_empty]
    intro h
    rw [h c hc] at hw
    cases hw
  · intro hall
    rw [mkPgInfoService, if_pos]
    simp only [beq_iff_eq, jsTrim_eq_empty]
    exact hall

theorem mkPgInfoService_valid_witness :
    mkPgInfoService "demo" = .ok ⟨"demo"⟩ ∧
      mkPgInfoService "  " = .error "invalid database name" ∧
      mkPgInfoService "" = .error "invalid database name" :=
  ⟨(mkPgInfoService_valid "demo").1 (by decide),
    (mkPgInfoService_valid "  ").2 (by decide),
    (mkPgInfoService_valid "").2 (by decide)⟩

/-- C3 counterexample: on a catalog whose schemata view holds exactly
one row — database `demo`, schema `information_schema` — `listAllSchemas`
returns the `information_schema` namespace and no `does_not_exist`
namespace, yet `types('information_schema')` passes the source's
validation (the name is found in `schemataAll()`) and issues one query
against `information_schema.pg_type`, instead of the claimed
InvalidCatalog failure with zero queries. -/
theorem types_validation_cex :
    (schemataAllRows
        [⟨some "demo", none, none, none, some "information_schema", none, none⟩]
        "demo").map PgSchema.schema_name = [some "information_schema"] ∧
    (typesRun [⟨some "demo", none, none, none, some "information_schema", none, none⟩]
        "demo" "information_schema").1 = .ok () ∧
    (typesRun [⟨some "demo", none, none, none, some "information_schema", none, none⟩]
        "demo" "information_schema").2 = [sqlSelectTypes "information_schema"] := by
  refine ⟨by decide, rfl, rfl⟩

/-- C3 (amended: `types('information_schema')` also passes validation,
because `information_schema` is present in `listAllSchemas()`, and so
issues one type-descriptor query): on any catalog state where
`listAllSchemas()` returns the `information_schema` namespace and no
namespace named `does_not_exist`, `types('pg_catalog')` succeeds and
issues the type-descriptor query, `types('information_schema')`
succeeds validation and issues the type-descriptor query against
`information_schema.pg_type`, and `types('does_not_exist')` fails with
the InvalidCatalog error and issues zero queries against `pg_type`. -/
theorem types_validation (db : List PgSchema) (dbName : String)
    (hin : ∃ s ∈ schemataAllRows db dbName, s.schema_name = some "information_schema")
    (hout : ∀ s ∈ schemataAllRows db dbName, s.schema_name ≠ some "does_not_exist") :
    ((typesRun db dbName "pg_catalog").1 = .ok () ∧
      (typesRun db dbName "pg_catalog").2 = [sqlSelectTypes "pg_catalog"]) ∧
    ((typesRun db dbName "information_schema").1 = .ok () ∧
      (typesRun db dbName "information_schema").2 =
        [sqlSelectTypes "information_schema"]) ∧
    ((typesRun db dbName "does_not_exist").1 =
        .error "invalid catalog \"does_not_exist\" to find types" ∧
      (typesRun db dbName "does_not_exist").2 = []) := by
  refine ⟨?_, ?_, ?_⟩
  · constructor <;> rfl
  · have hany : (schemataAllRows db dbName).any
        (fun s => s.schema_name == some "information_schema") = true := by
      rcases hin with ⟨s, hs, hname⟩
      exact List.any_eq_true.mpr ⟨s, hs, by simp [hname]⟩
    have hpg : ("information_schema" == "pg_catalog") = false := by decide
    constructor <;> simp [typesRun, hany, hpg]
  · have hany : (schemataAllRows db dbName).any
        (fun s => s.schema_name == some "does_not_exist") = false := by
      rw [List.any_eq_false]
      intro s hs
      simpa using hout s hs
    have hpg : ("does_not_exist" == "pg_catalog") = false := by decide
    constructor <;> simp [typesRun, hany, hpg]

theorem types_validation_witness :
    (typesRun [⟨some "demo", none, none, none, some "information_schema", none, none⟩]
        "demo" "does_not_exist").1 =
      .error "invalid catalog \"does_not_exist\" to find types" ∧
    (typesRun [⟨some "demo", none, none, none, some "information_schema", none, none⟩]
        "demo" "does_not_exist").2 = [] := by
  have h := types_validation
    [⟨some "demo", none, none, none, some "information_schema", none, none⟩] "demo"
    ⟨⟨some "demo", none, none, none, some "information_schema", none, none⟩,
      by decide, rfl⟩
    (by decide)
  exact h.2.2

/-- C6: `schemata()` returns no row named `information_schema` and no
row whose schema name starts with `pg_` (the `NOT LIKE 'pg_%'` filter
excludes every such name), while `schemataAll()` applies no exclusion:
every schema row of the named database — reserved namespaces included —
appears in its result. -/
theorem schemata_excludes_reserved (db : List PgSchema) (dbName : String) :
    (∀ s ∈ schemataRows db dbName,
      s.schema_name ≠ some "information_schema" ∧
        ∀ n, s.schema_name = some n → ¬ (['p', 'g', '_'] <+: n.data)) ∧
    (∀ s ∈ db, s.catalog_name = some dbName → s ∈ schemataAllRows db dbName) := by
  constructor
  · intro s hs
    rw [schemataRows, List.mem_filter] at hs
    have hp := hs.2
    rw [schemataPred] at hp
    cases hn : s.schema_name with
    | none => rw [hn] at hp; simp at hp
    | some n =>
      rw [hn] at hp
      simp only [Bool.and_eq_true, bne_iff_ne, ne_eq, Bool.not_eq_true'] at hp
      constructor
      · intro hx
        exact hp.2.1 (Option.some.inj hx)
      · intro n' hn'
        cases Option.some.inj hn'
        intro hpre
        rcases hpre with ⟨t, ht⟩
        have hlike : likePgUnderscorePercent n = true := by
          rw [likePgUnderscorePercent, ← ht]
          rfl
        rw [hlike] at hp
        exact absurd hp.2.2 (by simp)
  · intro s hs hcat
    rw [schemataAllRows, List.mem_filter]
    exact ⟨hs, by simp [schemataAllPred, hcat]⟩

theorem schemata_excludes_reserved_witness :
    (⟨some "demo", none, none, none, some "public", none, none⟩ : PgSchema).schema_name ≠
        some "information_schema" ∧
      (⟨some "demo", none, none, none, some "information_schema", none, none⟩ : PgSchema) ∈
        schemataAllRows
          [⟨some "demo", none, none, none, some "public", none, none⟩,
            ⟨some "demo", none, none, none, some "information_schema", none, none⟩]
          "demo" := by
  have h := schemata_excludes_reserved
    [⟨some "demo", none, none, none, some "public", none, none⟩,
      ⟨some "demo", none, none, none, some "information_schema", none, none⟩] "demo"
  have hrows : schemataRows
      [⟨some "demo", none, none, none, some "public", none, none⟩,
        ⟨some "demo", none, none, none, some "information_schema", none, none⟩] "demo" =
      [⟨some "demo", none, none, none, some "public", none, none⟩] := rfl
  exact ⟨(h.1 ⟨some "demo", none, none, none, some "public", none, none⟩
      (by rw [hrows]; exact List.mem_singleton_self _)).1,
    h.2 ⟨some "demo", none, none, none, some "information_schema", none, none⟩
      (by simp) rfl⟩

/-- C4 counterexample: with two column rows carrying the same
`(table_name, column_name)` key and one matching probe row, only the
first copy receives the probe's dimension; the second copy matches the
probe but keeps its prior null `array_dimension`, refuting "every
column row that matches some probe row has its array_dimension equal to
that probe row's" over arbitrary lists. -/
theorem appendArrayDimension_enrich_cex :
    colMatches ⟨some "t", some "a", none, []⟩ ⟨"t", "a", 1⟩ = true ∧
    (appendArrayDimension
        [⟨some "t", some "a", none, []⟩, ⟨some "t", some "a", none, []⟩]
        [⟨"t", "a", 1⟩]).get? 1 =
      some ⟨some "t", some "a", none, []⟩ ∧
    (⟨some "t", some "a", none, []⟩ : PgColumn).array_dimension ≠
      some (⟨"t", "a", 1⟩ : PgTableArrayColumn).array_dimension := by
  refine ⟨by decide, by decide, by decide⟩

/-- C4 (amended: the column rows are assumed pairwise key-distinct on
`(table_name, column_name)`, the spec's own data-model invariant): after
`appendArrayDimension`, every column row matching some probe row has its
`array_dimension` equal to a matching probe row's dimension, every
column row matching no probe row is returned unchanged (keeping its
prior `array_dimension`), and unmatched probe rows have no effect and
raise no error. -/
theorem appendArrayDimension_enrich (cs : List PgColumn) (ps : List PgTableArrayColumn)
    (hnd : (cs.map colKey).Nodup) (i : Nat) (c : PgColumn)
    (hget : cs.get? i = some c) :
    ((∀ a ∈ ps, colMatches c a = false) →
      (appendArrayDimension cs ps).get? i = some c) ∧
    ((∃ a ∈ ps, colMatches c a = true) →
      ∃ a ∈ ps, colMatches c a = true ∧
        (appendArrayDimension cs ps).get? i =
          some { c with array_dimension := some a.array_dimension }) := by
  constructor
  · intro hno
    exact appendArrayDimension_no_target (by rw [targets_eq_nil hget hno]; rfl) hget
  · rintro ⟨a₀, ha₀, hm₀⟩
    have hfmi : firstMatchIdx cs a₀ = some i := firstMatchIdx_of_nodup hnd hget hm₀
    have hmem : a₀ ∈ ps.filter (fun b => firstMatchIdx cs b == some i) :=
      List.mem_filter.mpr ⟨ha₀, by simp [hfmi]⟩
    cases hL : (ps.filter (fun b => firstMatchIdx cs b == some i)).getLast? with
    | none =>
      rw [List.getLast?_eq_none_iff] at hL
      rw [hL] at hmem
      exact absurd hmem (List.not_mem_nil _)
    | some b =>
      obtain ⟨hb, hmb, hres⟩ := appendArrayDimension_last_target hL hget
      exact ⟨b, hb, hmb, hres⟩

theorem appendArrayDimension_enrich_witness :
    (appendArrayDimension
        [⟨some "t", some "a", none, []⟩, ⟨some "t", some "b", none, []⟩]
        [⟨"t", "a", 1⟩]).get? 0 = some ⟨some "t", some "a", some 1, []⟩ ∧
    (appendArrayDimension
        [⟨some "t", some "a", none, []⟩, ⟨some "t", some "b", none, []⟩]
        [⟨"t", "a", 1⟩]).get? 1 = some ⟨some "t", some "b", none, []⟩ := by
  have h0 := appendArrayDimension_enrich
    [⟨some "t", some "a", none, []⟩, ⟨some "t", some "b", none, []⟩]
    [⟨"t", "a", 1⟩] (by decide) 0 ⟨some "t", some "a", none, []⟩ rfl
  have h1 := appendArrayDimension_enrich
    [⟨some "t", some "a", none, []⟩, ⟨some "t", some "b", none, []⟩]
    [⟨"t", "a", 1⟩] (by decide) 1 ⟨some "t", some "b", none, []⟩ rfl
  constructor
  · rcases h0.2 ⟨⟨"t", "a", 1⟩, List.mem_singleton_self _, by decide⟩ with ⟨a, ha, _, hres⟩
    obtain rfl := List.mem_singleton.mp ha
    exact hres
  · exact h1.1 (by decide)

/-- C5: the enrichment is idempotent — applying `appendArrayDimension`
with the same probe set twice yields exactly the state reached after one
application, for every column-row list and probe-row list (the
`array_dimension` fields are overwritten with the same values, never
accumulated). -/
theorem appendArrayDimension_idem (cs : List PgColumn) (ps : List PgTableArrayColumn) :
    appendArrayDimension (appendArrayDimension cs ps) ps = appendArrayDimension cs ps := by
  apply List.ext_get?
  intro i
  rw [appendArrayDimension_get? (appendArrayDimension cs ps) ps i]
  simp only [firstMatchIdx_appendArrayDimension]
  rw [appendArrayDimension_get? cs ps i]
  cases hL : (ps.filter (fun a => firstMatchIdx cs a == some i)).getLast? with
  | none => rfl
  | some a =>
    simp only [Option.map_map]
    congr 1

/-- C9: the enrichment changes nothing except the `array_dimension`
field of matched column rows — the length (and hence order) of the
column list is preserved, every row of the result agrees with the
corresponding input row on `table_name`, `column_name` and all remaining
fields, each row's `array_dimension` is either its prior value or the
dimension of a probe row it matches, and rows matching no probe row are
returned entirely unchanged.  (The probe list itself is only read by the
source loop, never written.) -/
theorem appendArrayDimension_frame (cs : List PgColumn) (ps : List PgTableArrayColumn) :
    (appendArrayDimension cs ps).length = cs.length ∧
    (∀ i c, cs.get? i = some c →
      ∃ c', (appendArrayDimension cs ps).get? i = some c' ∧
        c'.table_name = c.table_name ∧ c'.column_name = c.column_name ∧
        c'.rest = c.rest ∧
        (c'.array_dimension = c.array_dimension ∨
          ∃ a ∈ ps, colMatches c a = true ∧ c'.array_dimension = some a.array_dimension)) ∧
    (∀ i c, cs.get? i = some c → (∀ a ∈ ps, colMatches c a = false) →
      (appendArrayDimension cs ps).get? i = some c) := by
  refine ⟨appendArrayDimension_length cs ps, ?_, ?_⟩
  · intro i c hget
    cases hL : (ps.filter (fun b => firstMatchIdx cs b == some i)).getLast? with
    | none => exact ⟨c, appendArrayDimension_no_target hL hget, rfl, rfl, rfl, .inl rfl⟩
    | some a =>
      obtain ⟨ha, hm, hres⟩ := appendArrayDimension_last_target hL hget
      exact ⟨{ c with array_dimension := some a.array_dimension }, hres, rfl, rfl, rfl,
        .inr ⟨a, ha, hm, rfl⟩⟩
  · intro i c hget hno
    exact appendArrayDimension_no_target (by rw [targets_eq_nil hget hno]; rfl) hget

theorem appendArrayDimension_frame_witness :
    (appendArrayDimension [⟨some "t", some "x", some 5, [("k", some "v")]⟩]
        [⟨"t", "y", 2⟩]).length = 1 ∧
    (appendArrayDimension [⟨some "t", some "x", some 5, [("k", some "v")]⟩]
        [⟨"t", "y", 2⟩]).get? 0 = some ⟨some "t", some "x", some 5, [("k", some "v")]⟩ := by
  have h := appendArrayDimension_frame [⟨some "t", some "x", some 5, [("k", some "v")]⟩]
    [⟨"t", "y", 2⟩]
  exact ⟨by rw [h.1]; rfl, h.2.2 0 ⟨some "t", some "x", some 5, [("k", some "v")]⟩ rfl (by decide)⟩

/-- C10: when a probe row matches more than one column row,
`appendArrayDimension` updates exactly the first matching column row in
list order (overwriting its `array_dimension` with the probe's
dimension) and leaves every other position — in particular every later
matching row's `array_dimension` — unchanged. -/
theorem appendArrayDimension_first_match_only (cs : List PgColumn)
    (a : PgTableArrayColumn) (i : Nat) (h : firstMatchIdx cs a = some i) :
    (∃ c, cs.get? i = some c ∧ colMatches c a = true ∧
      (appendArrayDimension cs [a]).get? i =
        some { c with array_dimension := some a.array_dimension }) ∧
    ∀ j, j ≠ i → (appendArrayDimension cs [a]).get? j = cs.get? j := by
  have hsingle : appendArrayDimension cs [a] = setFirstMatch cs a := rfl
  constructor
  · rcases firstMatchIdx_eq_some h with ⟨c, hget, hm⟩
    refine ⟨c, hget, hm, ?_⟩
    rw [hsingle, setFirstMatch_get?, if_pos h, hget]
    rfl
  · intro j hj
    rw [hsingle, setFirstMatch_get?, if_neg]
    intro hx
    rw [h] at hx
    exact hj (Option.some.inj hx).symm

theorem appendArrayDimension_first_match_only_witness :
    (appendArrayDimension [⟨some "t", some "a", none, []⟩, ⟨some "t", some "a", none, []⟩]
        [⟨"t", "a", 7⟩]).get? 0 = some ⟨some "t", some "a", some 7, []⟩ ∧
    (appendArrayDimension [⟨some "t", some "a", none, []⟩, ⟨some "t", some "a", none, []⟩]
        [⟨"t", "a", 7⟩]).get? 1 = some ⟨some "t", some "a", none, []⟩ := by
  have h := appendArrayDimension_first_match_only
    [⟨some "t", some "a", none, []⟩, ⟨some "t", some "a", none, []⟩] ⟨"t", "a", 7⟩ 0
    (by decide)
  constructor
  · rcases h.1 with ⟨c, hc, _, hres⟩
    obtain rfl : c = ⟨some "t", some "a", none, []⟩ := (Option.some.inj hc).symm
    exact hres
  · rw [h.2 1 (by decide)]
    rfl

end PgInfo
